import Mathlib

/-!
Shallow embedding of the smug broker core (Go package smug): the slack user
cache and reference translation (slack.go), the pattern routing engine
(pr.go), and the chunk-splitting helper.  Go strings are modelled as lists
of runes; the code under study only slices them at ASCII boundaries, where
Go byte indexes and rune indexes agree.  Go maps are association lists
where an insert shadows older bindings and lookup takes the first binding.
Go int64 counters are modelled as unbounded integers (they are reset on
every heartbeat, far below overflow).
-/

namespace Smug

/-- Go string as a list of runes. -/
abbrev GoStr := List Char

/-- Rune list of a Lean string literal. -/
def gs (s : String) : GoStr := s.data

/-- ASCII fragment of Go strings.ToLower (all strings the claims exercise
are ASCII). -/
def lowerChar (c : Char) : Char :=
  if 'A' ≤ c ∧ c ≤ 'Z' then Char.ofNat (c.toNat + 32) else c

def asciiLower (s : GoStr) : GoStr := s.map lowerChar

/-- ASCII fragment of Go strings.ToUpper. -/
def upperChar (c : Char) : Char :=
  if 'a' ≤ c ∧ c ≤ 'z' then Char.ofNat (c.toNat - 32) else c

def asciiUpper (s : GoStr) : GoStr := s.map upperChar

/-- Go map assignment m[k] = v: the new binding shadows any older one. -/
def mapSet {α : Type} (m : List (GoStr × α)) (k : GoStr) (v : α) :
    List (GoStr × α) :=
  (k, v) :: m

/-- Go map read m[k] (with its found flag as an Option). -/
def mapGet {α : Type} (m : List (GoStr × α)) (k : GoStr) : Option α :=
  (m.find? (fun kv => kv.1 == k)).map (fun kv => kv.2)

/-- Go strings.Split(s, sep) for a one-rune separator; never returns the
empty list. -/
def splitOnChar (sep : Char) : GoStr → List GoStr
  | [] => [[]]
  | c :: rest =>
    let r := splitOnChar sep rest
    if c = sep then [] :: r
    else (c :: r.headD []) :: r.tail

/-- Scanning core of Go strings.ReplaceAll for a non-empty search string:
replace every non-overlapping occurrence, left to right.  Structural on a
fuel that bounds the scanned length, so the kernel can evaluate it; each
step consumes at least one character, so a fuel of the string length never
runs out. -/
def replaceScan (old new : GoStr) : Nat → GoStr → GoStr
  | 0, s => s
  | _ + 1, [] => []
  | fuel + 1, c :: rest =>
    if old.isPrefixOf (c :: rest) then
      new ++ replaceScan old new fuel (rest.drop (old.length - 1))
    else
      c :: replaceScan old new fuel rest

/-- Go strings.ReplaceAll.  (The repository never passes an empty search
string; Go would then insert new at every rune boundary.) -/
def replaceAll (s old new : GoStr) : GoStr :=
  if old = [] then new ++ s.foldr (fun c acc => c :: (new ++ acc)) []
  else replaceScan old new s.length s

/-- slack.go SlackUser. -/
structure SlackUser where
  Id : GoStr
  Nick : GoStr
  Avatar : GoStr
deriving Repr, DecidableEq

/-- slack.go SlackUserCache: two maps keyed by opaque id and by
lowercased nick (its sync.RWMutex guards only map access and carries no
pure content). -/
structure SlackUserCache where
  users : List (GoStr × SlackUser)
  nicks : List (GoStr × SlackUser)
deriving Repr, DecidableEq

/-- The slack web API as reached through GetUserInfo: an external
collaborator, modelled as a partial lookup from user key to the fetched
name and avatar. -/
def SlackApi := GoStr → Option SlackUser

/-- slack.go SlackUserCache.CacheUser. -/
def SlackUserCache.cacheUser (suc : SlackUserCache) (u : SlackUser) :
    SlackUserCache :=
  { users := mapSet suc.users u.Id u
    nicks := mapSet suc.nicks (asciiLower u.Nick) u }

/-- slack.go SlackUserCache.UserFromAPI: remote fetch, then cache; an api
miss models the GetUserInfo error path. -/
def SlackUserCache.userFromAPI (suc : SlackUserCache) (api : SlackApi)
    (ukey : GoStr) : Option SlackUser × SlackUserCache :=
  match api ukey with
  | none => (none, suc)
  | some u =>
    let suser : SlackUser := { Id := ukey, Nick := u.Nick, Avatar := u.Avatar }
    (some suser, suc.cacheUser suser)

/-- slack.go SlackUserCache.userInIdCache. -/
def SlackUserCache.userInIdCache (suc : SlackUserCache) (ukey : GoStr) :
    Option SlackUser :=
  mapGet suc.users ukey

/-- slack.go SlackUserCache.userInNickCache (lookups lowercase the nick). -/
def SlackUserCache.userInNickCache (suc : SlackUserCache) (nick : GoStr) :
    Option SlackUser :=
  mapGet suc.nicks (asciiLower nick)

/-- slack.go SlackUserCache.UserNick: id to nick; on a cache miss either
give up (cacheOnly) or fetch remotely, which warms the cache. -/
def SlackUserCache.userNick (suc : SlackUserCache) (api : SlackApi)
    (ukey : GoStr) (cacheOnly : Bool) : GoStr × SlackUserCache :=
  match suc.userInIdCache ukey with
  | some u => (u.Nick, suc)
  | none =>
    if cacheOnly then ([], suc)
    else
      match suc.userFromAPI api ukey with
      | (none, suc2) => ([], suc2)
      | (some u, suc2) => (u.Nick, suc2)

/-- slack.go SlackUserCache.UserId: nick to id; on a cache miss either give
up (cacheOnly) or fetch remotely keyed by the nick, as the source does. -/
def SlackUserCache.userId (suc : SlackUserCache) (api : SlackApi)
    (nick : GoStr) (cacheOnly : Bool) : GoStr × SlackUserCache :=
  match suc.userInNickCache nick with
  | some u => (u.Id, suc)
  | none =>
    if cacheOnly then ([], suc)
    else
      match suc.userFromAPI api nick with
      | (none, suc2) => ([], suc2)
      | (some u, suc2) => (u.Id, suc2)

/-- C7: after CacheUser({Id:U1, Nick:Bob}) on any cache, UserNick(U1,
cacheOnly) returns Bob, and UserId(n, cacheOnly) returns U1 for every
casing n of the cached nick (nick lookup is case-insensitive): the record
is retrievable from both indexes. -/
theorem c7_cache_both_indexes (suc : SlackUserCache) (api : SlackApi)
    (n : GoStr) (hn : asciiLower n = gs ("bob")) :
    ((suc.cacheUser { Id := gs ("U1"), Nick := gs ("Bob"), Avatar := [] }).userNick
        api (gs ("U1")) true).1 = gs ("Bob") ∧
    ((suc.cacheUser { Id := gs ("U1"), Nick := gs ("Bob"), Avatar := [] }).userId
        api n true).1 = gs ("U1") := by
  constructor
  · simp [SlackUserCache.cacheUser, SlackUserCache.userNick,
      SlackUserCache.userInIdCache, mapGet, mapSet, List.find?]
  · simp [SlackUserCache.cacheUser, SlackUserCache.userId,
      SlackUserCache.userInNickCache, mapGet, mapSet, List.find?, hn]
    have : asciiLower (gs ("Bob")) = gs ("bob") := by decide
    simp [this, hn]

/-- Witness for c7_cache_both_indexes at the empty cache, an empty api and
the casing BOB. -/
theorem c7_cache_both_indexes_witness :
    asciiLower (gs ("BOB")) = gs ("bob") ∧
    (((SlackUserCache.mk [] []).cacheUser
        { Id := gs ("U1"), Nick := gs ("Bob"), Avatar := [] }).userNick
        (fun _ => none) (gs ("U1")) true).1 = gs ("Bob") := by
  refine ⟨by decide, ?_⟩
  exact (c7_cache_both_indexes (SlackUserCache.mk [] []) (fun _ => none)
    (gs ("BOB")) (by decide)).1

/-- config.go ContentType. -/
inductive ContentType where
  | display : ContentType
  | meta : ContentType
deriving Repr, DecidableEq

/-- config.go EventBlock (the Go field named Type, zero value Display, is
spelled ctype here because Type is a Lean keyword). -/
structure EventBlock where
  Title : GoStr
  Text : GoStr
  ImgUrl : GoStr
  ctype : ContentType
deriving Repr, DecidableEq

/-- config.go Event.  Broker references (Origin, ReplyBroker) are modelled
as numeric broker identities; the timestamp ts is wall-clock time and
stays outside the pure model.  ContentBlocks is an Option so that Go's nil
slice and an allocated empty slice stay distinguishable. -/
structure Event where
  IsCmdOutput : Bool
  Origin : Option Nat
  ReplyBroker : Option Nat
  ReplyTarget : GoStr
  Actor : GoStr
  Avatar : GoStr
  Text : GoStr
  RawText : GoStr
  ContentBlocks : Option (List EventBlock)
deriving Repr, DecidableEq

/-- A compiled regexp.Regexp as the pattern engine consumes it:
FindStringSubmatch (empty list when there is no match) and SubexpNames
(whose index 0 is the unnamed whole match). -/
structure Regex where
  subexpNames : List GoStr
  findSubmatch : GoStr → List GoStr

/-- A regex with no capture groups that matches every string, for concrete
instantiations. -/
def matchAllRegex : Regex :=
  { subexpNames := [[]], findSubmatch := fun s => [s] }

/-- pr.go Pattern. -/
structure Pattern where
  name : GoStr
  re : Regex
  url : GoStr
  headers : List (GoStr × GoStr)
  vars : List (GoStr × GoStr)
  method : GoStr
  help : GoStr

/-- pr.go NewExtendedPattern.  The result of regexp.Compile is supplied by
the environment as an Option Regex (the regex engine is an external
library).  The source checks strings.HasPrefix("http",
strings.ToLower(url)) with the arguments in exactly that order, guarded by
len(url) < 10; and its struct literal never assigns the vars field, whose
Go zero value is the nil map, here the empty list. -/
def newExtendedPattern (name : GoStr) (regCompile : Option Regex)
    (url : GoStr) (headers : List (GoStr × GoStr))
    ( vars : List (GoStr × GoStr)) (method : GoStr) (help : GoStr) :
    Except GoStr Pattern :=
  if decide (url.length < 10) && !((asciiLower url).isPrefixOf (gs ("http"))) then
    Except.error (gs ("url must begin with http"))
  else
    match regCompile with
    | none => Except.error (gs ("error compiling regex"))
    | some re =>
      let meth := asciiUpper method
      if !(meth == gs ("GET") || meth == gs ("POST")) then
        Except.error (gs ("method must be either GET or POST"))
      else
        Except.ok { name := name, re := re, url := url, headers := headers,
                    vars := [], method := method, help := help }

/-- pr.go NamedGroups. -/
abbrev NamedGroups := List (GoStr × GoStr)

/-- pr.go Pattern.ExtractMatches. -/
def Pattern.extractMatches (p : Pattern) (text : GoStr) :
    List GoStr × NamedGroups :=
  let ms := p.re.findSubmatch text
  if ms.length = 0 then (ms, [])
  else
    let named := (List.range p.re.subexpNames.length).foldl
      (fun acc i =>
        let nm := p.re.subexpNames.getD i []
        if i ≠ 0 ∧ nm ≠ [] then mapSet acc nm (ms.getD i [])
        else acc)
      []
    (ms, named)

/-- pr.go Pattern.Handle's decision: act (and spawn Submit) iff the regex
matched. -/
def Pattern.handle (p : Pattern) (evText : GoStr) : Bool :=
  !(p.extractMatches evText).1.isEmpty

/-- The JSON payload map Submit builds for the outbound request: first
actor and text, then every named capture, then the pattern's static vars;
each Go map assignment shadows earlier bindings for the same key. -/
def Pattern.payload (p : Pattern) (actor text : GoStr)
    (named : NamedGroups) : List (GoStr × GoStr) :=
  let base := mapSet (mapSet [] (gs ("actor")) actor) (gs ("text")) text
  let withNamed := named.foldl (fun m kv => mapSet m kv.1 kv.2) base
  p.vars.foldl (fun m kv => mapSet m kv.1 kv.2) withNamed

/-- Parsed JSON value (the fragment of the encoding/json grammar the
engine consumes; numbers keep their literal spelling). -/
inductive JVal where
  | jnull : JVal
  | jbool : Bool → JVal
  | jnum : GoStr → JVal
  | jstr : GoStr → JVal
  | jarr : List JVal → JVal
  | jobj : List (GoStr × JVal) → JVal
deriving Repr

def isWs (c : Char) : Bool :=
  c.toNat = 32 || c.toNat = 9 || c.toNat = 10 || c.toNat = 13

def skipWs (s : GoStr) : GoStr := s.dropWhile isWs

def isDigitCh (c : Char) : Bool := 48 ≤ c.toNat && c.toNat ≤ 57

/-- Value of one hexadecimal digit, by ASCII code. -/
def hexD (c : Char) : Option Nat :=
  let n := c.toNat
  if 48 ≤ n && n ≤ 57 then some (n - 48)
  else if 97 ≤ n && n ≤ 102 then some (n - 87)
  else if 65 ≤ n && n ≤ 70 then some (n - 55)
  else none

/-- Decoding table for one-character escapes in JSON strings. -/
def escChar (c : Char) : Option Char :=
  if c = 'n' then some (Char.ofNat 10)
  else if c = 't' then some (Char.ofNat 9)
  else if c = 'r' then some (Char.ofNat 13)
  else if c = 'b' then some (Char.ofNat 8)
  else if c = 'f' then some (Char.ofNat 12)
  else if c = '/' then some c
  else if c = '"' then some c
  else if c = '\\' then some c
  else none

/-- Read a JSON string body after the opening quote; returns the content
and the rest after the closing quote.  (Surrogate pairs and the control
character restriction are not modelled; every body in the repository's
contract is ASCII.) -/
def jReadStr : Nat → GoStr → Option (GoStr × GoStr)
  | 0, _ => none
  | fuel + 1, input =>
    match input with
    | [] => none
    | c0 :: more =>
      if c0 = '"' then some ([], more)
      else if c0 = '\\' then
        match more with
        | 'u' :: h1 :: h2 :: h3 :: h4 :: r2 =>
          (match hexD h1, hexD h2, hexD h3, hexD h4 with
           | some x1, some x2, some x3, some x4 =>
             (jReadStr fuel r2).map (fun pr =>
               (Char.ofNat (x1 * 4096 + x2 * 256 + x3 * 16 + x4) :: pr.1,
                 pr.2))
           | _, _, _, _ => none)
        | e :: r2 =>
          (match escChar e with
           | some d => (jReadStr fuel r2).map (fun pr => (d :: pr.1, pr.2))
           | none => none)
        | [] => none
      else (jReadStr fuel more).map (fun pr => (c0 :: pr.1, pr.2))

/-- The optional exponent tail of a JSON number literal: its spelling and
the remaining input (unchanged input when no well-formed exponent
follows). -/
def jExpTail (s3 : GoStr) : GoStr × GoStr :=
  match s3 with
  | e :: more =>
    if e = 'e' || e = 'E' then
      let sgn : GoStr × GoStr :=
        match more with
        | '-' :: r => (['-'], r)
        | '+' :: r => (['+'], r)
        | _ => ([], more)
      let es := sgn.2.takeWhile isDigitCh
      if es.isEmpty then ([], s3)
      else (e :: (sgn.1 ++ es), sgn.2.drop es.length)
    else ([], s3)
  | [] => ([], s3)

/-- Read a JSON number literal (sign, digits, optional fraction and
exponent), kept raw: the engine's target struct has no numeric field, so a
number can only ever produce a decode error downstream. -/
def jReadNum (s : GoStr) : Option (JVal × GoStr) :=
  let sign : GoStr × GoStr :=
    match s with
    | '-' :: r => (['-'], r)
    | _ => ([], s)
  let ds := sign.2.takeWhile isDigitCh
  if ds.isEmpty then none
  else
    let s2 := sign.2.drop ds.length
    let fr : GoStr × GoStr :=
      match s2 with
      | '.' :: r =>
        let fs := r.takeWhile isDigitCh
        if fs.isEmpty then ([], s2) else ('.' :: fs, r.drop fs.length)
      | _ => ([], s2)
    let ex := jExpTail fr.2
    some (JVal.jnum (sign.1 ++ ds ++ fr.1 ++ ex.1), ex.2)

mutual

/-- Read one JSON value, fuel-bounded (the fuel dominates nesting depth). -/
def jReadVal : Nat → GoStr → Option (JVal × GoStr)
  | 0, _ => none
  | fuel + 1, s0 =>
    let s := skipWs s0
    if (gs ("true")).isPrefixOf s then some (JVal.jbool true, s.drop 4)
    else if (gs ("false")).isPrefixOf s then some (JVal.jbool false, s.drop 5)
    else if (gs ("null")).isPrefixOf s then some (JVal.jnull, s.drop 4)
    else
      match s with
      | '{' :: rest => jReadObj fuel rest true []
      | '[' :: rest => jReadArr fuel rest true []
      | '"' :: rest =>
        (jReadStr (rest.length + 1) rest).map
          (fun pr => (JVal.jstr pr.1, pr.2))
      | other => jReadNum other

/-- Read object fields after the opening brace (or after a comma, when
atStart is false). -/
def jReadObj : Nat → GoStr → Bool → List (GoStr × JVal) →
    Option (JVal × GoStr)
  | 0, _, _, _ => none
  | fuel + 1, s, atStart, acc =>
    match skipWs s with
    | '}' :: rest =>
      if atStart then some (JVal.jobj acc.reverse, rest) else none
    | '"' :: rest =>
      (match jReadStr (rest.length + 1) rest with
       | none => none
       | some kr =>
         (match skipWs kr.2 with
          | ':' :: r3 =>
            (match jReadVal fuel r3 with
             | none => none
             | some vr =>
               let fields := (kr.1, vr.1) :: acc
               (match skipWs vr.2 with
                | ',' :: r5 => jReadObj fuel r5 false fields
                | '}' :: r5 => some (JVal.jobj fields.reverse, r5)
                | _ => none))
          | _ => none))
    | _ => none

/-- Read array items after the opening bracket (or after a comma, when
atStart is false). -/
def jReadArr : Nat → GoStr → Bool → List JVal → Option (JVal × GoStr)
  | 0, _, _, _ => none
  | fuel + 1, s, atStart, acc =>
    match skipWs s with
    | ']' :: rest =>
      if atStart then some (JVal.jarr acc.reverse, rest) else none
    | s2 =>
      (match jReadVal fuel s2 with
       | none => none
       | some vr =>
         let items := vr.1 :: acc
         (match skipWs vr.2 with
          | ',' :: r3 => jReadArr fuel r3 false items
          | ']' :: r3 => some (JVal.jarr items.reverse, r3)
          | _ => none))

end

/-- json.Unmarshal's syntactic phase: one JSON value followed only by
whitespace. -/
def jUnmarshalTop (s : GoStr) : Option JVal :=
  match jReadVal (s.length + 1) s with
  | some (v, rest) => if skipWs rest = [] then some v else none
  | none => none

/-- pr.go JsonBlock.  Its struct tags are malformed (json:text, unquoted),
so encoding/json falls back to case-insensitive field-name matching. -/
structure JsonBlock where
  Text : GoStr
  Img : GoStr
  Title : GoStr
deriving Repr, DecidableEq

/-- pr.go JsonResponse (same malformed-tag note as JsonBlock). -/
structure JsonResponse where
  Text : GoStr
  Blocks : List JsonBlock
deriving Repr, DecidableEq

/-- encoding/json key-to-field match, case-insensitive on the field name
(given here already lowercased). -/
def keyIs (k : GoStr) (fieldLower : GoStr) : Bool :=
  asciiLower k == fieldLower

/-- json.Unmarshal of one blocks element into JsonBlock: unknown keys are
ignored, null leaves a field at its zero value, a wrong type is an
unmarshal error. -/
def jDecodeBlock : JVal → Option JsonBlock
  | JVal.jnull => some { Text := [], Img := [], Title := [] }
  | JVal.jobj fields =>
    fields.foldlM
      (fun (b : JsonBlock) kv =>
        if keyIs kv.1 (gs ("text")) then
          match kv.2 with
          | JVal.jstr s => some { b with Text := s }
          | JVal.jnull => some b
          | _ => none
        else if keyIs kv.1 (gs ("img")) then
          match kv.2 with
          | JVal.jstr s => some { b with Img := s }
          | JVal.jnull => some b
          | _ => none
        else if keyIs kv.1 (gs ("title")) then
          match kv.2 with
          | JVal.jstr s => some { b with Title := s }
          | JVal.jnull => some b
          | _ => none
        else some b)
      { Text := [], Img := [], Title := [] }
  | _ => none

/-- json.Unmarshal of the response body into JsonResponse. -/
def jDecodeResponse : JVal → Option JsonResponse
  | JVal.jnull => some { Text := [], Blocks := [] }
  | JVal.jobj fields =>
    fields.foldlM
      (fun (r : JsonResponse) kv =>
        if keyIs kv.1 (gs ("text")) then
          match kv.2 with
          | JVal.jstr s => some { r with Text := s }
          | JVal.jnull => some r
          | _ => none
        else if keyIs kv.1 (gs ("blocks")) then
          match kv.2 with
          | JVal.jarr items =>
            (match items.mapM jDecodeBlock with
             | some bs => some { r with Blocks := bs }
             | none => none)
          | JVal.jnull => some r
          | _ => none
        else some r)
      { Text := [], Blocks := [] }
  | _ => none

/-- Outcome of the HTTP exchange a Submit performs: transport failure from
client.Do, or a response with its status line (e.g. "200 OK") and raw
body. -/
inductive HttpOutcome where
  | transportErr : HttpOutcome
  | resp : GoStr → GoStr → HttpOutcome

/-- pr.go Pattern.Submit, response side: the events pushed onto the
feedback channel for a given HTTP outcome.  A transport error or a status
not beginning with "200" is logged and dropped; an empty body produces
nothing; a body that fails to unmarshal is logged and dropped; otherwise
exactly one feedback event is built, copying ReplyBroker and ReplyTarget
from the originating event. -/
def Pattern.submitFeedback (p : Pattern) (originEvt : Event)
    (outcome : HttpOutcome) : List Event :=
  match outcome with
  | HttpOutcome.transportErr => []
  | HttpOutcome.resp status body =>
    if !((gs ("200")).isPrefixOf status) then []
    else if body.length = 0 then []
    else
      match jUnmarshalTop body with
      | none => []
      | some v =>
        match jDecodeResponse v with
        | none => []
        | some dat =>
          let blocks := dat.Blocks.map (fun blk =>
            { Title := blk.Title, Text := blk.Text, ImgUrl := blk.Img,
              ctype := ContentType.display })
          [{ IsCmdOutput := true, Origin := none,
             ReplyBroker := originEvt.ReplyBroker,
             ReplyTarget := originEvt.ReplyTarget,
             Actor := [], Avatar := [], Text := dat.Text, RawText := [],
             ContentBlocks := some blocks }]

/-- pr.go MetaPattern: the built-in HelperPattern or a configured
Pattern. -/
inductive MetaPattern where
  | helper : MetaPattern
  | pat : Pattern → MetaPattern

/-- The Handle decision of each MetaPattern: HelperPattern acts on text
beginning "..list" (enqueueing the help text); a Pattern acts iff its
regex matches (spawning a Submit). -/
def MetaPattern.handles (mp : MetaPattern) (ev : Event) : Bool :=
  match mp with
  | MetaPattern.helper => (gs ("..list")).isPrefixOf ev.Text
  | MetaPattern.pat p => p.handle ev.Text

/-- pr.go PatternRoutingBroker: the pattern list and the two heartbeat
counters (the lock and feedback channel carry no pure content). -/
structure PRBState where
  patterns : List MetaPattern
  msgsActn : Int
  msgsRcvd : Int
deriving Inhabited

/-- The pattern loop of pr.go PatternRoutingBroker.HandleEvent: try each
pattern in order, stopping at the first whose Handle returns true.
Returns the index of the pattern that acted, if any. -/
def prbLoop (ev : Event) : List MetaPattern → Nat → Option Nat
  | [], _ => none
  | mp :: rest, i => if mp.handles ev then some i else prbLoop ev rest (i + 1)

/-- pr.go PatternRoutingBroker.HandleEvent: msgsRcvd always increments;
msgsActn increments exactly when some pattern acted, and the loop breaks
there.  ReplyBroker is never consulted. -/
def prbHandleEvent (st : PRBState) (ev : Event) : PRBState × Option Nat :=
  let acted := prbLoop ev st.patterns 0
  ({ st with
      msgsRcvd := st.msgsRcvd + 1
      msgsActn := st.msgsActn + (if acted.isSome then 1 else 0) },
   acted)

/-- The loop returns the least index of a pattern whose Handle returns
true, offset by the starting index. -/
theorem prbLoop_least (ev : Event) :
    ∀ (ps : List MetaPattern) (i : Nat),
      (∃ mp ∈ ps, mp.handles ev = true) →
      ∃ k, prbLoop ev ps i = some (i + k) ∧
        (∃ q, ps.get? k = some q ∧ q.handles ev = true) ∧
        (∀ l, l < k → ∀ q, ps.get? l = some q → q.handles ev = false) := by
  intro ps
  induction ps with
  | nil => intro i h; rcases h with ⟨mp, hmem, _⟩; cases hmem
  | cons hd tl ih =>
    intro i h
    by_cases hh : hd.handles ev = true
    · refine ⟨0, ?_, ⟨hd, rfl, hh⟩, ?_⟩
      · simp [prbLoop, hh]
      · intro l hl; omega
    · have htl : ∃ mp ∈ tl, mp.handles ev = true := by
        rcases h with ⟨mp, hmem, hmp⟩
        rcases List.mem_cons.mp hmem with h1 | h2
        · exact absurd (h1 ▸ hmp) hh
        · exact ⟨mp, h2, hmp⟩
      rcases ih (i + 1) htl with ⟨k, hk, hq, hmin⟩
      refine ⟨k + 1, ?_, ?_, ?_⟩
      · have : prbLoop ev (hd :: tl) i = prbLoop ev tl (i + 1) := by
          simp [prbLoop, hh]
        rw [this, hk]; congr 1; omega
      · simpa using hq
      · intro l hl q hget
        match l, hget with
        | 0, hget =>
          simp at hget
          exact hget ▸ (by simpa using hh)
        | l + 1, hget =>
          exact hmin l (by omega) q (by simpa using hget)

/-- C2: when the text matches several configured patterns, only the first
matching pattern in configuration order acts: HandleEvent reports a single
acting index, it is the least matching one, every earlier pattern did not
match, and the actioned counter increases by exactly one (msgsRcvd also by
one). -/
theorem c2_first_match_wins (st : PRBState) (ev : Event)
    (hmatch : ∃ mp ∈ st.patterns, mp.handles ev = true) :
    ∃ k, (prbHandleEvent st ev).2 = some k ∧
      (∃ q, st.patterns.get? k = some q ∧ q.handles ev = true) ∧
      (∀ l, l < k → ∀ q, st.patterns.get? l = some q →
        q.handles ev = false) ∧
      (prbHandleEvent st ev).1.msgsActn = st.msgsActn + 1 ∧
      (prbHandleEvent st ev).1.msgsRcvd = st.msgsRcvd + 1 := by
  rcases prbLoop_least ev st.patterns 0 hmatch with ⟨k, hk, hq, hmin⟩
  refine ⟨k, ?_, hq, hmin, ?_, ?_⟩
  · simpa [prbHandleEvent] using hk
  · simp [prbHandleEvent, hk]
  · simp [prbHandleEvent]

/-- A concrete configured pattern over the match-everything regex. -/
def pA : Pattern :=
  { name := [], re := matchAllRegex, url := gs ("http://example.com/a")
    headers := [], vars := [], method := gs ("POST"), help := [] }

/-- A second concrete configured pattern. -/
def pB : Pattern :=
  { name := [], re := matchAllRegex, url := gs ("http://example.com/b")
    headers := [], vars := [], method := gs ("POST"), help := [] }

/-- A concrete inbound event. -/
def evHello : Event :=
  { IsCmdOutput := false, Origin := none, ReplyBroker := none
    ReplyTarget := [], Actor := gs ("alice"), Avatar := []
    Text := gs ("hello"), RawText := [], ContentBlocks := none }

/-- A concrete router state holding the two patterns, counters at zero. -/
def prb0 : PRBState :=
  { patterns := [MetaPattern.pat pA, MetaPattern.pat pB]
    msgsActn := 0, msgsRcvd := 0 }

/-- Witness for c2_first_match_wins: both patterns of prb0 match
evHello. -/
theorem c2_first_match_wins_witness :
    ∃ k, (prbHandleEvent prb0 evHello).2 = some k ∧
      (∃ q, prb0.patterns.get? k = some q ∧ q.handles evHello = true) ∧
      (∀ l, l < k → ∀ q, prb0.patterns.get? l = some q →
        q.handles evHello = false) ∧
      (prbHandleEvent prb0 evHello).1.msgsActn = prb0.msgsActn + 1 ∧
      (prbHandleEvent prb0 evHello).1.msgsRcvd = prb0.msgsRcvd + 1 :=
  c2_first_match_wins prb0 evHello
    ⟨MetaPattern.pat pA, by simp [prb0], rfl⟩

/-- C1 (against the claim): a pattern constructed by NewExtendedPattern
with the static vars {k: v} yields payloads without the key k, because the
constructor drops its vars argument (pr.go:100-107 omits the field from
the struct literal); named captures do appear, and on a shared key the
capture value, not the static var, is what the payload holds. -/
theorem c1_static_vars_dropped :
    (newExtendedPattern (gs ("pname")) (some matchAllRegex)
        (gs ("http://example.com/hook")) [] [(gs ("k"), gs ("v"))]
        (gs ("POST")) []).map
      (fun p =>
        (mapGet (p.payload (gs ("alice")) (gs ("hi"))
            [(gs ("g"), gs ("gv"))]) (gs ("k")),
         mapGet (p.payload (gs ("alice")) (gs ("hi"))
            [(gs ("g"), gs ("gv"))]) (gs ("g")),
         mapGet (p.payload (gs ("alice")) (gs ("hi"))
            [(gs ("k"), gs ("cap"))]) (gs ("k")),
         p.vars)) =
      Except.ok (none, some (gs ("gv")), some (gs ("cap")), []) := rfl

/-- C3 (against the claim): the URL validation of NewExtendedPattern is
inverted — a non-http URL of length at least 10 is accepted, while the
http-shaped URL http://a is rejected, because pr.go:89 tests
len(url) < 10 combined by conjunction with HasPrefix("http", ToLower(url))
whose arguments are reversed. -/
theorem c3_url_check_broken :
    (newExtendedPattern (gs ("pname")) (some matchAllRegex)
        (gs ("ftp://evil.example/x")) [] [] (gs ("POST"))
        []).toOption.isSome = true ∧
    (newExtendedPattern (gs ("pname")) (some matchAllRegex)
        (gs ("http://a")) [] [] (gs ("POST"))
        []).toOption.isSome = false := ⟨rfl, rfl⟩

/-- The exact response body the C4 scenario fixes. -/
def okBody : GoStr := gs ("\x7b\"text\":\"ok\",\"blocks\":[]\x7d")

/-- C4 counterexample: a 2xx response (201 Created) carrying the body
from the claim produces no feedback event at all, because Submit only
accepts statuses whose text begins with "200" (pr.go:198). -/
theorem c4_status_201_no_feedback :
    Pattern.submitFeedback pA evHello
      (HttpOutcome.resp (gs ("201 Created")) okBody) = [] := rfl

/-- C4 as amended: for a response whose status line begins with "200" and
whose body is exactly the claimed JSON, Submit emits exactly one feedback
event, with Text ok, an allocated empty ContentBlocks sequence, and
ReplyBroker/ReplyTarget copied from the originating event. -/
theorem c4_status200_single_feedback (p : Pattern) (ev : Event)
    (status : GoStr) (hs : (gs ("200")).isPrefixOf status = true) :
    p.submitFeedback ev (HttpOutcome.resp status okBody) =
      [{ IsCmdOutput := true, Origin := none, ReplyBroker := ev.ReplyBroker,
         ReplyTarget := ev.ReplyTarget, Actor := [], Avatar := [],
         Text := gs ("ok"), RawText := [], ContentBlocks := some [] }] := by
  simp only [Pattern.submitFeedback, hs, Bool.not_true, Bool.false_eq_true,
    if_false]
  rfl

/-- Witness for c4_status200_single_feedback at status 200 OK. -/
theorem c4_status200_single_feedback_witness :
    (gs ("200")).isPrefixOf (gs ("200 OK")) = true ∧
    Pattern.submitFeedback pA evHello
      (HttpOutcome.resp (gs ("200 OK")) okBody) =
      [{ IsCmdOutput := true, Origin := none,
         ReplyBroker := evHello.ReplyBroker,
         ReplyTarget := evHello.ReplyTarget, Actor := [], Avatar := [],
         Text := gs ("ok"), RawText := [], ContentBlocks := some [] }] :=
  ⟨by decide, c4_status200_single_feedback pA evHello (gs ("200 OK"))
    (by decide)⟩

/-- C5: a matched event raises both counters (msgsRcvd and msgsActn each
by one) regardless of how the external call later ends, and a transport
failure or a non-2xx status (status line not starting with the digit 2)
produces no feedback event. -/
theorem c5_non2xx_still_actioned (st : PRBState) (ev : Event)
    (hmatch : ∃ mp ∈ st.patterns, mp.handles ev = true) :
    (prbHandleEvent st ev).1.msgsRcvd = st.msgsRcvd + 1 ∧
    (prbHandleEvent st ev).1.msgsActn = st.msgsActn + 1 ∧
    (∀ (p : Pattern) (status body : GoStr), status.headD ' ' ≠ '2' →
      p.submitFeedback ev (HttpOutcome.resp status body) = []) ∧
    (∀ p : Pattern, p.submitFeedback ev HttpOutcome.transportErr = []) := by
  rcases prbLoop_least ev st.patterns 0 hmatch with ⟨k, hk, _, _⟩
  refine ⟨by simp [prbHandleEvent], by simp [prbHandleEvent, hk], ?_, ?_⟩
  · intro p status body hstat
    have hpre : (gs ("200")).isPrefixOf status = false := by
      cases status with
      | nil => rfl
      | cons c rest =>
        have hc : c ≠ '2' := by
          intro h
          exact hstat (by simp [List.headD, h])
        have h2 : (('2' : Char) == c) = false := by
          simp [hc.symm]
        show (('2' : Char) == c && _) = false
        simp [h2]
    simp [Pattern.submitFeedback, hpre]
  · intro p
    rfl

/-- Witness for c5_non2xx_still_actioned on prb0 and evHello, with the
inner quantifiers also checked at a 404 response. -/
theorem c5_non2xx_still_actioned_witness :
    (prbHandleEvent prb0 evHello).1.msgsRcvd = prb0.msgsRcvd + 1 ∧
    (prbHandleEvent prb0 evHello).1.msgsActn = prb0.msgsActn + 1 ∧
    Pattern.submitFeedback pB evHello
      (HttpOutcome.resp (gs ("404 Not Found")) okBody) = [] ∧
    Pattern.submitFeedback pB evHello HttpOutcome.transportErr = [] := by
  have h := c5_non2xx_still_actioned prb0 evHello
    ⟨MetaPattern.pat pA, by simp [prb0], rfl⟩
  exact ⟨h.1, h.2.1,
    h.2.2.1 pB (gs ("404 Not Found")) okBody (by decide),
    h.2.2.2 pB⟩

/-- RE2 word character (Perl classes in Go regexp are ASCII-only). -/
def wordChar (c : Char) : Bool := c.isAlphanum || c = '_'

/-- Character admitted inside the id group of re_uids. -/
def uidChar (c : Char) : Bool := wordChar c || c = '|'

/-- One regex match as FindAllStringSubmatchIndex reports it: whole-match
bounds and first-group bounds (all end-exclusive rune indexes). -/
structure RMatch where
  m0 : Nat
  m1 : Nat
  g0 : Nat
  g1 : Nat
deriving Repr, DecidableEq

/-- Go s[a:b] on a rune list (the sources only slice at valid match
bounds, where take/drop clamping never fires). -/
def extract (s : GoStr) (a b : Nat) : GoStr := (s.drop a).take (b - a)

/-- FindAllStringSubmatchIndex of re_uids `<@(U[\w|]+)>`: scan left to
right for `<@U`, take the maximal run of id characters, and require a
closing `>` (no shorter run can succeed, since `>` is outside the class);
matches do not overlap. -/
def findUidsAux : Nat → GoStr → Nat → List RMatch
  | 0, _, _ => []
  | _ + 1, [], _ => []
  | fuel + 1, '<' :: '@' :: 'U' :: tail, i =>
    let r := (tail.takeWhile uidChar).length
    if 1 ≤ r ∧ (tail.drop r).head? = some '>' then
      ⟨i, i + 4 + r, i + 2, i + 3 + r⟩ ::
        findUidsAux fuel (tail.drop (r + 1)) (i + 4 + r)
    else
      findUidsAux fuel ('@' :: 'U' :: tail) (i + 1)
  | fuel + 1, _ :: rest, i => findUidsAux fuel rest (i + 1)

def findUids (s : GoStr) : List RMatch := findUidsAux (s.length + 1) s 0

/-- FindAllStringSubmatchIndex of re_usernick `^(\w+):`: anchored, so at
most one match, at the start of the string. -/
def findUsernick (s : GoStr) : List RMatch :=
  let r := (s.takeWhile wordChar).length
  if 1 ≤ r ∧ (s.drop r).head? = some ':' then [⟨0, r + 1, 0, r⟩] else []

/-- FindAllStringSubmatchIndex of re_atusers `@(\w+)\b`: after a maximal
word-character run the boundary always holds. -/
def findAtUsersAux : Nat → GoStr → Nat → List RMatch
  | 0, _, _ => []
  | _ + 1, [], _ => []
  | fuel + 1, '@' :: tail, i =>
    let r := (tail.takeWhile wordChar).length
    if 1 ≤ r then
      ⟨i, i + 1 + r, i + 1, i + 1 + r⟩ ::
        findAtUsersAux fuel (tail.drop r) (i + 1 + r)
    else
      findAtUsersAux fuel tail (i + 1)
  | fuel + 1, _ :: rest, i => findAtUsersAux fuel rest (i + 1)

def findAtUsers (s : GoStr) : List RMatch := findAtUsersAux (s.length + 1) s 0

/-- Index of the last occurrence of c in l, if any. -/
def lastIdxOf (c : Char) (l : GoStr) : Option Nat :=
  (List.range l.length).foldl
    (fun acc j => if l.getD j ' ' = c then some j else acc) none

/-- FindAllStringSubmatchIndex of re_embeddedurls `<(http.+\|?.*)>`: a
match starts at a `<` followed by `http`; leftmost-first greedy matching
runs the group to the last `>` of the newline-free region, needing at
least one character between `http` and that `>`. -/
def findEmbeddedUrlsAux : Nat → GoStr → Nat → List RMatch
  | 0, _, _ => []
  | _ + 1, [], _ => []
  | fuel + 1, '<' :: 'h' :: 't' :: 't' :: 'p' :: tail, i =>
    let region := tail.takeWhile (fun c => c ≠ '\n')
    (match lastIdxOf '>' region with
     | some j =>
       if 1 ≤ j then
         ⟨i, i + 6 + j, i + 1, i + 5 + j⟩ ::
           findEmbeddedUrlsAux fuel (tail.drop (j + 1)) (i + 6 + j)
       else
         findEmbeddedUrlsAux fuel ('h' :: 't' :: 't' :: 'p' :: tail) (i + 1)
     | none => findEmbeddedUrlsAux fuel ('h' :: 't' :: 't' :: 'p' :: tail) (i + 1))
  | fuel + 1, _ :: rest, i => findEmbeddedUrlsAux fuel rest (i + 1)

def findEmbeddedUrls (s : GoStr) : List RMatch :=
  findEmbeddedUrlsAux (s.length + 1) s 0

/-- slack.go ConvertRefsToUsers: collect uid mentions (reverse match
order), resolve each through the cache (splitting a `uid|fallback` form at
the pipe), deduplicate, then replace every occurrence of each `<@uid>`.
Go iterates the uids map in unspecified order; it is modelled in reverse
insertion order (latest first), which is observably equivalent whenever
nicknames introduce no fresh mention markup. -/
def convertRefsToUsers (api : SlackApi) (suc : SlackUserCache) (s : GoStr)
    (cacheOnly : Bool) : GoStr × SlackUserCache :=
  let ms := findUids s
  let collected := (ms.reverse).foldl
    (fun (acc : List (GoStr × GoStr) × SlackUserCache) (m : RMatch) =>
      let uid := extract s m.g0 m.g1
      let res :=
        if uid.contains '|' then
          let parts := splitOnChar '|' uid
          acc.2.userNick api (parts.headD []) cacheOnly
        else
          acc.2.userNick api uid cacheOnly
      if (mapGet acc.1 uid).isSome then (acc.1, res.2)
      else (mapSet acc.1 uid res.1, res.2))
    ([], suc)
  let out := collected.1.foldl
    (fun cur kv => replaceAll cur (gs ("<@") ++ kv.1 ++ gs (">")) kv.2) s
  (out, collected.2)

/-- One step of the leading `USER:` pass of ConvertUsersToRefs.  The match
indexes come from the string as it was before the loop, while extraction
reads the current string, exactly as the source does. -/
def usernickStep (api : SlackApi) (cacheOnly : Bool)
    (acc : GoStr × SlackUserCache) (m : RMatch) : GoStr × SlackUserCache :=
  let usernick := extract acc.1 m.g0 m.g1
  let res := acc.2.userId api usernick cacheOnly
  if 4 < res.1.length then
    (replaceAll acc.1 usernick (gs ("@") ++ res.1), res.2)
  else (acc.1, res.2)

/-- One step of the embedded `@user` pass of ConvertUsersToRefs (same
stale-index discipline as the source). -/
def atUsersStep (api : SlackApi) (cacheOnly : Bool)
    (acc : GoStr × SlackUserCache) (m : RMatch) : GoStr × SlackUserCache :=
  let usernick := extract acc.1 m.g0 m.g1
  let res := acc.2.userId api usernick cacheOnly
  if 1 < res.1.length then
    (replaceAll acc.1 (gs ("@") ++ usernick)
      (gs ("<@") ++ res.1 ++ gs (">")), res.2)
  else (acc.1, res.2)

/-- slack.go ConvertUsersToRefs: first the anchored `USER:` shorthand
(substituted only when the resolved id is longer than 4), then embedded
`@user` tokens (substituted only when the resolved id is longer than 1),
both iterated in reverse match order. -/
def convertUsersToRefs (api : SlackApi) (suc : SlackUserCache) (s : GoStr)
    (cacheOnly : Bool) : GoStr × SlackUserCache :=
  let pass1 := ((findUsernick s).reverse).foldl (usernickStep api cacheOnly) (s, suc)
  ((findAtUsers pass1.1).reverse).foldl (atUsersStep api cacheOnly) pass1

/-- The fragment of Go html.UnescapeString the broker can encounter here:
the predefined named entities (every string in the claims is
entity-free). -/
def htmlUnescapeFrag : GoStr → GoStr
  | [] => []
  | '&' :: 'l' :: 't' :: ';' :: r => '<' :: htmlUnescapeFrag r
  | '&' :: 'g' :: 't' :: ';' :: r => '>' :: htmlUnescapeFrag r
  | '&' :: 'a' :: 'm' :: 'p' :: ';' :: r => '&' :: htmlUnescapeFrag r
  | '&' :: 'q' :: 'u' :: 'o' :: 't' :: ';' :: r => '"' :: htmlUnescapeFrag r
  | '&' :: '#' :: '3' :: '9' :: ';' :: r => Char.ofNat 39 :: htmlUnescapeFrag r
  | c :: rest => c :: htmlUnescapeFrag rest

/-- The label choice inside SimplifyParse: split the captured group at
pipes; with exactly two segments prefer a non-empty second (the human
label), otherwise fall back to the first segment; the final else branch is
unreachable because strings.Split never returns an empty slice. -/
def udescrOf (entire grp : GoStr) : GoStr :=
  let parts := splitOnChar '|' grp
  if 2 < parts.length ∨ parts.length = 1 then parts.headD []
  else if parts.length = 2 then
    if 0 < (parts.getD 1 []).length then parts.getD 1 [] else parts.headD []
  else entire

/-- slack.go SimplifyParse: replace embedded link markup (reverse match
order, extracting with the original indexes from the current string, as
the source does) and then decode html entities. -/
def simplifyParse (s : GoStr) : GoStr :=
  let ms := findEmbeddedUrls s
  let out := (ms.reverse).foldl
    (fun cur (m : RMatch) =>
      let entire := extract cur m.m0 m.m1
      replaceAll cur entire (udescrOf entire (extract cur m.g0 m.g1)))
    s
  htmlUnescapeFrag out

/-- slack.go SlackBroker, pure part: identity (for the ReplyBroker
self-test), api handle, user cache, home channel id, counters. -/
structure SlackSt where
  selfRef : Nat
  api : SlackApi
  usercache : SlackUserCache
  chanid : GoStr
  msgsSent : Int
  msgsRcvd : Int

/-- A section block as HandleEvent assembles it for the slack library:
mrkdwn text plus an optional image accessory. -/
inductive SlackBlock where
  | sect : GoStr → Option GoStr → SlackBlock
deriving Repr, DecidableEq

/-- The message content option passed to PostMessage. -/
inductive MsgContent where
  | text : GoStr → MsgContent
  | blocks : List SlackBlock → MsgContent
deriving Repr, DecidableEq

/-- The PostMessage call HandleEvent issues. -/
structure PostMsg where
  dest : GoStr
  content : MsgContent
  username : GoStr
  iconEmoji : GoStr
deriving Repr, DecidableEq

/-- The block-slice construction loop of slack.go HandleEvent: a bolded
header section per titled block, then a section per block that has text or
an image. -/
def buildBlockSlice (cbs : List EventBlock) : List SlackBlock :=
  cbs.foldl
    (fun acc db =>
      let acc1 :=
        if 0 < db.Title.length then
          acc ++ [SlackBlock.sect (gs ("*") ++ db.Title ++ gs ("*")) none]
        else acc
      if db.Text = [] ∧ db.ImgUrl = [] then acc1
      else if 0 < db.ImgUrl.length then
        acc1 ++ [SlackBlock.sect db.Text (some db.ImgUrl)]
      else acc1 ++ [SlackBlock.sect db.Text none])
    []

/-- The part of slack.go HandleEvent after the ReplyBroker gate: bump
msgsRcvd, translate the text outbound (cacheOnly false, so the cache may
warm), pick the destination, build the content, post. -/
def slackHandleEventBody (st : SlackSt) (ev : Event) :
    SlackSt × Option PostMsg :=
  let res := convertUsersToRefs st.api st.usercache ev.Text false
  let st2 := { st with msgsRcvd := st.msgsRcvd + 1, usercache := res.2 }
  let dest := if ev.ReplyTarget.length = 0 then st.chanid else ev.ReplyTarget
  let content :=
    match ev.ContentBlocks with
    | some cbs =>
      if 0 < cbs.length then MsgContent.blocks (buildBlockSlice cbs)
      else MsgContent.text res.1
    | none => MsgContent.text res.1
  (st2, some { dest := dest, content := content, username := ev.Actor
               iconEmoji := gs (":avatar_") ++ ev.Actor ++ gs (":") })

/-- slack.go HandleEvent: events carrying a ReplyBroker other than this
broker are ejected before anything happens. -/
def slackHandleEvent (st : SlackSt) (ev : Event) : SlackSt × Option PostMsg :=
  match ev.ReplyBroker with
  | some r => if r ≠ st.selfRef then (st, none) else slackHandleEventBody st ev
  | none => slackHandleEventBody st ev

/-- With cacheOnly set, UserId never mutates the cache. -/
theorem userId_cacheOnly_state (suc : SlackUserCache) (api : SlackApi)
    (n : GoStr) : (suc.userId api n true).2 = suc := by
  unfold SlackUserCache.userId
  cases suc.userInNickCache n <;> simp

/-- The leading USER: pass is a no-op when every match resolves to an id
of length at most 4. -/
theorem usernickFold_noop (api : SlackApi) (suc : SlackUserCache)
    (s : GoStr) (ms : List RMatch)
    (h : ∀ m ∈ ms,
      ((suc.userId api (extract s m.g0 m.g1) true).1).length ≤ 4) :
    ms.foldl (usernickStep api true) (s, suc) = (s, suc) := by
  induction ms with
  | nil => rfl
  | cons m rest ih =>
    have hm := h m (List.mem_cons_self m rest)
    have hstep : usernickStep api true (s, suc) m = (s, suc) := by
      have hn : ¬ 4 <
          ((suc.userId api (extract s m.g0 m.g1) true).1).length := by omega
      simp only [usernickStep]
      rw [if_neg hn, userId_cacheOnly_state]
    rw [List.foldl_cons, hstep]
    exact ih (fun m2 hm2 => h m2 (List.mem_cons_of_mem _ hm2))

/-- The embedded @user pass is a no-op when every match resolves to an id
of length at most 1. -/
theorem atUsersFold_noop (api : SlackApi) (suc : SlackUserCache)
    (s : GoStr) (ms : List RMatch)
    (h : ∀ m ∈ ms,
      ((suc.userId api (extract s m.g0 m.g1) true).1).length ≤ 1) :
    ms.foldl (atUsersStep api true) (s, suc) = (s, suc) := by
  induction ms with
  | nil => rfl
  | cons m rest ih =>
    have hm := h m (List.mem_cons_self m rest)
    have hstep : atUsersStep api true (s, suc) m = (s, suc) := by
      have hn : ¬ 1 <
          ((suc.userId api (extract s m.g0 m.g1) true).1).length := by omega
      simp only [atUsersStep]
      rw [if_neg hn, userId_cacheOnly_state]
    rw [List.foldl_cons, hstep]
    exact ih (fun m2 hm2 => h m2 (List.mem_cons_of_mem _ hm2))

/-- ConvertUsersToRefs (cache-only) is the identity when neither pass has
an actionable match. -/
theorem convertUsers_noop (api : SlackApi) (suc : SlackUserCache)
    (s : GoStr)
    (h1 : ∀ m ∈ findUsernick s,
      ((suc.userId api (extract s m.g0 m.g1) true).1).length ≤ 4)
    (h2 : ∀ m ∈ findAtUsers s,
      ((suc.userId api (extract s m.g0 m.g1) true).1).length ≤ 1) :
    convertUsersToRefs api suc s true = (s, suc) := by
  have p1 : ((findUsernick s).reverse).foldl (usernickStep api true)
      (s, suc) = (s, suc) :=
    usernickFold_noop api suc s _
      (fun m hm => h1 m (List.mem_reverse.mp hm))
  have p2 : ((findAtUsers s).reverse).foldl (atUsersStep api true)
      (s, suc) = (s, suc) :=
    atUsersFold_noop api suc s _
      (fun m hm => h2 m (List.mem_reverse.mp hm))
  simp only [convertUsersToRefs, p1]
  exact p2

/-- ConvertRefsToUsers (cache-only) is the identity when the text has no
uid mention markup. -/
theorem convertRefs_noMatches (api : SlackApi) (suc : SlackUserCache)
    (s : GoStr) (h : findUids s = []) :
    convertRefsToUsers api suc s true = (s, suc) := by
  simp [convertRefsToUsers, h]

/-- C6 as amended: inbound, then outbound for the same network, then
inbound again returns the first inbound result s1, provided s1 has no
remaining mention markup, does not begin with a cached nick followed by a
colon resolving to an id longer than 4 runes, and contains no @-prefixed
word resolving to an id longer than 1 rune.  (Without the provisos the
round trip fails; see the counterexample.) -/
theorem c6_roundtrip_amended (api : SlackApi) (suc : SlackUserCache)
    (s s1 : GoStr)
    (hs1 : s1 = (convertRefsToUsers api suc s true).1)
    (h0 : findUids s1 = [])
    (h1 : ∀ m ∈ findUsernick s1,
      ((suc.userId api (extract s1 m.g0 m.g1) true).1).length ≤ 4)
    (h2 : ∀ m ∈ findAtUsers s1,
      ((suc.userId api (extract s1 m.g0 m.g1) true).1).length ≤ 1) :
    (convertRefsToUsers api suc
      ((convertUsersToRefs api suc s1 true).1) true).1 = s1 := by
  rw [convertUsers_noop api suc s1 h1 h2]
  rw [convertRefs_noMatches api suc s1 h0]

/-- An api that always misses (no remote lookups available). -/
def apiNone : SlackApi := fun _ => none

/-- The cached record bob ↔ U6CRHMXK4 (a realistic 9-rune slack id). -/
def uBob : SlackUser :=
  { Id := gs ("U6CRHMXK4"), Nick := gs ("bob"), Avatar := [] }

/-- A cache holding exactly uBob in both indexes. -/
def sucB : SlackUserCache :=
  { users := [(gs ("U6CRHMXK4"), uBob)], nicks := [(gs ("bob"), uBob)] }

/-- C6 counterexample: the text `<@U6CRHMXK4>: hello` holds one
unambiguous cached mention; inbound yields `bob: hello`, outbound rewrites
the leading nick to `@U6CRHMXK4` (not valid mention markup, and the id is
not a cached nick), and the second inbound translation leaves that intact,
so the round trip does not return to the first inbound result. -/
theorem c6_roundtrip_not_restored :
    (convertRefsToUsers apiNone sucB
      (gs ("<@U6CRHMXK4>: hello")) true).1 = gs ("bob: hello") ∧
    (convertUsersToRefs apiNone sucB
      (gs ("bob: hello")) true).1 = gs ("@U6CRHMXK4: hello") ∧
    (convertRefsToUsers apiNone sucB
      (gs ("@U6CRHMXK4: hello")) true).1 = gs ("@U6CRHMXK4: hello") ∧
    (convertRefsToUsers apiNone sucB
      ((convertUsersToRefs apiNone sucB
        ((convertRefsToUsers apiNone sucB
          (gs ("<@U6CRHMXK4>: hello")) true).1) true).1) true).1 ≠
      (convertRefsToUsers apiNone sucB
        (gs ("<@U6CRHMXK4>: hello")) true).1 := by
  refine ⟨by decide, by decide, by decide, by decide⟩

/-- Witness for c6_roundtrip_amended: an embedded cached mention
`hi <@U6CRHMXK4> yo`, whose inbound form `hi bob yo` satisfies every
proviso, round-trips. -/
theorem c6_roundtrip_amended_witness :
    (convertRefsToUsers apiNone sucB
      (gs ("hi <@U6CRHMXK4> yo")) true).1 = gs ("hi bob yo") ∧
    (convertRefsToUsers apiNone sucB
      ((convertUsersToRefs apiNone sucB
        (gs ("hi bob yo")) true).1) true).1 = gs ("hi bob yo") :=
  ⟨by decide,
   c6_roundtrip_amended apiNone sucB (gs ("hi <@U6CRHMXK4> yo"))
     (gs ("hi bob yo")) (by decide) (by decide) (by decide) (by decide)⟩

/-- C8: link markup with a label simplifies to the label, bare link markup
to the url itself; and in general the chosen label is the second segment
exactly when the pipe-split has two segments and a non-empty label, and
the first segment when there is no label (one segment, or an empty second
segment) or more than two segments. -/
theorem c8_simplify_links :
    simplifyParse (gs ("<http://x.com|Example>")) = gs ("Example") ∧
    simplifyParse (gs ("<http://x.com>")) = gs ("http://x.com") ∧
    (∀ entire grp : GoStr,
      ((splitOnChar '|' grp).length = 2 →
        (0 < ((splitOnChar '|' grp).getD 1 []).length →
          udescrOf entire grp = (splitOnChar '|' grp).getD 1 []) ∧
        (((splitOnChar '|' grp).getD 1 []).length = 0 →
          udescrOf entire grp = (splitOnChar '|' grp).headD [])) ∧
      ((splitOnChar '|' grp).length = 1 ∨ 2 < (splitOnChar '|' grp).length →
        udescrOf entire grp = (splitOnChar '|' grp).headD [])) := by
  refine ⟨by decide, by decide, ?_⟩
  intro entire grp
  constructor
  · intro h2
    constructor
    · intro hpos
      simp only [udescrOf, h2]
      simp [hpos]
      intro hc
      exfalso
      have he : ((splitOnChar '|' grp).getD 1 []) = [] := by
        simpa [List.getD] using hc
      rw [he] at hpos
      simp at hpos
    · intro hzero
      simp only [udescrOf, h2]
      have hnp : ¬ 0 < ((splitOnChar '|' grp).getD 1 []).length := by omega
      simp [hnp]
      intro hc
      exfalso
      have hc2 : 0 < ((splitOnChar '|' grp).getD 1 []).length := by
        simpa [List.getD, List.get?_eq_getElem?] using hc
      omega
  · intro h
    have hyes : 2 < (splitOnChar '|' grp).length ∨
        (splitOnChar '|' grp).length = 1 := h.symm
    simp only [udescrOf]
    rw [if_pos hyes]

/-- Witness for c8_simplify_links: the general selection rule evaluated on
the two-segment group http://x.com|Example. -/
theorem c8_simplify_links_witness :
    udescrOf (gs ("http://x.com|Example")) (gs ("http://x.com|Example")) =
      (splitOnChar '|' (gs ("http://x.com|Example"))).getD 1 [] :=
  ((c8_simplify_links.2.2 (gs ("http://x.com|Example"))
    (gs ("http://x.com|Example"))).1 (by decide)).1 (by decide)

/-- C9 as amended: the slack broker ignores (returns unchanged state and
posts nothing for) every event whose ReplyBroker is set to a different
broker; the pattern router has no such gate (see the counterexample). -/
theorem c9_slack_ignores_foreign_reply (st : SlackSt) (ev : Event)
    (r : Nat) (h1 : ev.ReplyBroker = some r) (h2 : r ≠ st.selfRef) :
    slackHandleEvent st ev = (st, none) := by
  simp [slackHandleEvent, h1, h2]

/-- A concrete slack broker state with identity 3. -/
def slackSt0 : SlackSt :=
  { selfRef := 3, api := apiNone, usercache := sucB, chanid := gs ("C1")
    msgsSent := 0, msgsRcvd := 0 }

/-- evHello readdressed to broker 7. -/
def evForeign : Event := { evHello with ReplyBroker := some 7 }

/-- Witness for c9_slack_ignores_foreign_reply: broker 3 ignores an event
addressed to broker 7. -/
theorem c9_slack_ignores_foreign_reply_witness :
    slackHandleEvent slackSt0 evForeign = (slackSt0, none) :=
  c9_slack_ignores_foreign_reply slackSt0 evForeign 7 rfl (by decide)

/-- C9 counterexample: the pattern-routing broker acts on an event whose
ReplyBroker names another broker — its HandleEvent never consults
ReplyBroker, so a pattern fires and the actioned counter rises. -/
theorem c9_pattern_router_acts_on_foreign_reply :
    evForeign.ReplyBroker = some 7 ∧
    (prbHandleEvent prb0 evForeign).2 = some 0 ∧
    (prbHandleEvent prb0 evForeign).1.msgsActn = prb0.msgsActn + 1 := by
  refine ⟨rfl, by decide, by decide⟩

/-- A Go slice of runes: the live elements plus the spare capacity beyond
them (cap = length + extra); spare array cells hold zeroed runes. -/
structure GoSlice where
  data : GoStr
  extra : Nat
deriving Repr, DecidableEq

def GoSlice.cap (s : GoSlice) : Nat := s.data.length + s.extra

/-- One append of a rune, with the doubling growth Go's runtime applies to
small slices (capacities 1, 2, 4, 8, ... as ChunkSplit builds its slice
rune by rune). -/
def appendRune (s : GoSlice) (c : Char) : GoSlice :=
  if s.extra = 0 then
    { data := s.data ++ [c]
      extra := (if s.data.length = 0 then 1 else s.data.length * 2) -
        (s.data.length + 1) }
  else { data := s.data ++ [c], extra := s.extra - 1 }

/-- The rune-collecting loop at the top of ChunkSplit. -/
def buildCharSlice (body : GoStr) : GoSlice := body.foldl appendRune ⟨[], 0⟩

/-- Outcome of a ChunkSplit run: a result; a panic at charSlice[:limit]
(limit beyond the capacity); a panic at charSlice[limit:] (limit beyond
the length); or non-termination (limit 0 with a non-empty body). -/
inductive ChunkOut where
  | ok : List GoStr → ChunkOut
  | panicSliceUpper : ChunkOut
  | panicSliceLower : ChunkOut
  | outOfFuel : ChunkOut
deriving Repr, DecidableEq

/-- The main loop of ChunkSplit, with the result list built by recursion
instead of the Go accumulator (same list): while elements remain, append
string(charSlice[:limit]) — reading spare cells as zero runes when limit
overruns the live length, panicking when it overruns the capacity — then
reslice charSlice[limit:] (panicking when limit overruns the length, and
keeping the leftover capacity), then shrink limit to the remaining length
when that is smaller. -/
def chunkLoop : Nat → GoSlice → Nat → ChunkOut
  | 0, _, _ => ChunkOut.outOfFuel
  | fuel + 1, s, limit =>
    if 1 ≤ s.data.length then
      if s.cap < limit then ChunkOut.panicSliceUpper
      else
        let chunk := (s.data ++ List.replicate s.extra (Char.ofNat 0)).take limit
        if s.data.length < limit then ChunkOut.panicSliceLower
        else
          let s2 : GoSlice := { data := s.data.drop limit, extra := s.extra }
          let limit2 := if s2.data.length < limit then s2.data.length else limit
          match chunkLoop fuel s2 limit2 with
          | ChunkOut.ok cs => ChunkOut.ok (chunk :: cs)
          | e => e
    else ChunkOut.ok []

/-- ChunkSplit (the util file of package smug).  A fuel of the rune count
plus one suffices for every terminating run, since each pass consumes at
least one rune once limit is positive. -/
def chunkSplit (body : GoStr) (limit : Nat) : ChunkOut :=
  chunkLoop (body.length + 1) (buildCharSlice body) limit

/-- Appending runes one by one really collects the body. -/
theorem buildCharSlice_data (body : GoStr) :
    (buildCharSlice body).data = body := by
  have key : ∀ (l : GoStr) (s0 : GoSlice),
      (l.foldl appendRune s0).data = s0.data ++ l := by
    intro l
    induction l with
    | nil => intro s0; simp
    | cons c rest ih =>
      intro s0
      have happ : (appendRune s0 c).data = s0.data ++ [c] := by
        unfold appendRune
        by_cases h : s0.extra = 0 <;> simp [h]
      rw [List.foldl_cons, ih, happ, List.append_assoc]
      rfl
  simpa using key body ⟨[], 0⟩

/-- The successful runs of chunkLoop: when limit is positive and at most
the remaining length (or nothing remains), the loop returns chunks that
concatenate to the data, every chunk except the last has exactly limit
runes, every chunk is non-empty, and chunks exist iff data does. -/
theorem chunkLoop_ok (fuel : Nat) :
    ∀ (s : GoSlice) (limit : Nat),
      (s.data.length = 0 ∨ (1 ≤ limit ∧ limit ≤ s.data.length)) →
      s.data.length < fuel →
      ∃ cs, chunkLoop fuel s limit = ChunkOut.ok cs ∧
        cs.flatten = s.data ∧
        (∀ c ∈ cs.dropLast, c.length = limit) ∧
        (∀ c ∈ cs, 1 ≤ c.length) ∧
        (cs = [] ↔ s.data.length = 0) := by
  induction fuel with
  | zero =>
    intro s limit hpre hfuel
    exact absurd hfuel (by omega)
  | succ n ih =>
    intro s limit hpre hfuel
    by_cases h1 : 1 ≤ s.data.length
    · have hlim : 1 ≤ limit ∧ limit ≤ s.data.length := by
        rcases hpre with h | h
        · omega
        · exact h
      have hcap : ¬ s.cap < limit := by
        have hc : s.data.length ≤ s.cap := by
          unfold GoSlice.cap
          omega
        omega
      have hlow : ¬ s.data.length < limit := by omega
      have hlen2 : (s.data.drop limit).length = s.data.length - limit :=
        List.length_drop limit s.data
      have hpre2 : (s.data.drop limit).length = 0 ∨
          (1 ≤ (if (s.data.drop limit).length < limit then
                  (s.data.drop limit).length else limit) ∧
           (if (s.data.drop limit).length < limit then
              (s.data.drop limit).length else limit) ≤
             (s.data.drop limit).length) := by
        by_cases hz : (s.data.drop limit).length = 0
        · exact Or.inl hz
        · right
          by_cases hsm : (s.data.drop limit).length < limit
          · simp only [if_pos hsm]
            omega
          · simp only [if_neg hsm]
            omega
      have hfuel2 : (s.data.drop limit).length < n := by
        rw [hlen2]; omega
      rcases ih ⟨s.data.drop limit, s.extra⟩
          (if (s.data.drop limit).length < limit then
            (s.data.drop limit).length else limit) hpre2 hfuel2 with
        ⟨cs, hloop, hjoin0, hdrop, hpos, hiff0⟩
      have hjoin : cs.flatten = s.data.drop limit := hjoin0
      have hiff : cs = [] ↔ (s.data.drop limit).length = 0 := hiff0
      have hstep : chunkLoop (n + 1) s limit =
          match chunkLoop n ⟨s.data.drop limit, s.extra⟩
              (if (s.data.drop limit).length < limit then
                (s.data.drop limit).length else limit) with
          | ChunkOut.ok cs2 =>
            ChunkOut.ok
              ((s.data ++ List.replicate s.extra (Char.ofNat 0)).take limit
                :: cs2)
          | e => e := by
        simp only [chunkLoop, if_pos h1, if_neg hcap, if_neg hlow]
      have hchunk :
          (s.data ++ List.replicate s.extra (Char.ofNat 0)).take limit =
            s.data.take limit :=
        List.take_append_of_le_length hlim.2
      have htl : (s.data.take limit).length = limit := by
        simp [List.length_take]
        omega
      refine ⟨s.data.take limit :: cs, ?_, ?_, ?_, ?_, ?_⟩
      · rw [hstep, hloop, hchunk]
      · simp only [List.flatten_cons, hjoin]
        exact List.take_append_drop limit s.data
      · by_cases hcs : cs = []
        · subst hcs
          intro c hc
          simp at hc
        · have hdc : (s.data.take limit :: cs).dropLast =
              s.data.take limit :: cs.dropLast := by
            cases cs with
            | nil => exact absurd rfl hcs
            | cons a as => simp [List.dropLast]
          rw [hdc]
          intro c hc
          rcases List.mem_cons.mp hc with h | h
          · subst h
            exact htl
          · by_cases hsm : (s.data.drop limit).length < limit
            · -- the recursion ran with a shortened limit, so it produced a
              -- single chunk and its dropLast is empty
              exfalso
              have hdrop2 : ∀ c2 ∈ cs.dropLast,
                  c2.length = (s.data.drop limit).length := by
                intro c2 hc2
                have := hdrop c2 hc2
                rwa [if_pos hsm] at this
              cases cs with
              | nil => exact hcs rfl
              | cons x xs =>
                cases xs with
                | nil => simp at h
                | cons y ys =>
                  have hx : x.length = (s.data.drop limit).length := by
                    apply hdrop2
                    simp [List.dropLast]
                  have hy : 1 ≤ y.length := hpos y (by simp)
                  have hj : (x :: y :: ys).flatten.length =
                      (s.data.drop limit).length := by
                    rw [hjoin]
                  simp only [List.flatten_cons, List.length_append] at hj
                  omega
            · have := hdrop c h
              rwa [if_neg hsm] at this
      · intro c hc
        rcases List.mem_cons.mp hc with h | h
        · subst h
          rw [htl]
          exact hlim.1
        · exact hpos c h
      · constructor
        · intro h
          cases h
        · intro h
          omega
    · have hlen : s.data.length = 0 := by omega
      have hdata : s.data = [] := List.length_eq_zero.mp hlen
      refine ⟨[], ?_, by simp [hdata], by simp, by simp, by simp [hlen]⟩
      simp [chunkLoop, h1]

/-- C10: ChunkSplit with a positive limit succeeds on every body whose
rune count is zero or at least limit — its chunks concatenate back to the
body and every chunk except possibly the last has exactly limit runes —
yet a non-empty body of fewer runes than the limit can panic at the slice
expression charSlice[:limit]: with body ab and limit 3 the two-rune slice
has capacity 2 and the expression indexes out of range. -/
theorem c10_chunksplit_total_and_panic :
    (∀ (body : GoStr) (limit : Nat), 1 ≤ limit →
      body.length = 0 ∨ limit ≤ body.length →
      ∃ chunks, chunkSplit body limit = ChunkOut.ok chunks ∧
        chunks.flatten = body ∧
        (∀ c ∈ chunks.dropLast, c.length = limit)) ∧
    chunkSplit (gs ("ab")) 3 = ChunkOut.panicSliceUpper := by
  constructor
  · intro body limit hl hpre
    have hb := buildCharSlice_data body
    have hpre2 : (buildCharSlice body).data.length = 0 ∨
        (1 ≤ limit ∧ limit ≤ (buildCharSlice body).data.length) := by
      rw [hb]
      rcases hpre with h | h
      · exact Or.inl h
      · exact Or.inr ⟨hl, h⟩
    have hfuel : (buildCharSlice body).data.length < body.length + 1 := by
      rw [hb]
      omega
    rcases chunkLoop_ok (body.length + 1) (buildCharSlice body) limit
        hpre2 hfuel with ⟨cs, h1, h2, h3, _, _⟩
    exact ⟨cs, h1, hb ▸ h2, h3⟩
  · decide

/-- Witness for the universal half of c10_chunksplit_total_and_panic at
body abcde and limit 2. -/
theorem c10_chunksplit_total_and_panic_witness :
    ∃ chunks, chunkSplit (gs ("abcde")) 2 = ChunkOut.ok chunks ∧
      chunks.flatten = gs ("abcde") ∧
      (∀ c ∈ chunks.dropLast, c.length = 2) :=
  c10_chunksplit_total_and_panic.1 (gs ("abcde")) 2 (by decide) (by decide)
end Smug
